import Mathlib

/-!
Shallow embedding of the `secure-finality-tools` repository:

* `waitForSecureUpTo` (packages/secure-finality/src/waitForSecureUpTo.ts):
  a watermark waiter that subscribes to `pallet.secureUpTo`, resolves once
  the observed value is a finite number `≥ targetBlock`, and unsubscribes
  on resolution.
* `signAndSendSecure` (packages/secure-finality/src/index.ts): drives a
  submitted transaction through its lifecycle, fans statuses out to the
  user callback, and on a successful `Finalized` status waits for the
  watermark and emits one synthetic `SecureFinalized` callback.
* the advancer loop (scripts, second script in secure-tx-test.mjs):
  a fixed-interval loop that reads the finalized height and the watermark
  and issues a privileged `sudo.sudo(pallet.noteAnchorVerified(finalized))`
  call when the watermark lags.

JavaScript numbers delivered by the watermark subscription are modelled as
`Option Int`: `some n` for a finite value (block heights are integral),
`none` for a non-finite result of the conversion (`NaN`, `±Infinity`).
-/

/-! ## Watermark waiter (waitForSecureUpTo.ts) -/

/-- A value delivered by the `secureUpTo` subscription, after the source's
conversion step `upTo?.toNumber ? upTo.toNumber() : Number(upTo)`:
either a finite number or a non-finite one (NaN or an infinity, e.g. from
`Number` applied to a non-numeric object). -/
inductive WmValue where
  | finite (n : Int)
  | nonFinite
deriving DecidableEq, Repr

/-- The conversion result guarded by `Number.isFinite(n)` in the source:
`some n` when `Number.isFinite(n)` holds, `none` otherwise. -/
def WmValue.toNum : WmValue → Option Int
  | .finite n => some n
  | .nonFinite => none

/-- Outcome state of the promise returned by `waitForSecureUpTo`:
`resolve()` and `reject(e)` each fire at most once. -/
inductive WaitPhase where
  | pending
  | resolved
  | rejected
deriving DecidableEq, Repr

/-- State of one `waitForSecureUpTo` invocation: the promise outcome and
whether the `secureUpTo` subscription is still active (`unsub` not yet
invoked). -/
structure WaiterSt where
  phase : WaitPhase
  subscribed : Bool
deriving DecidableEq, Repr

/-- Initial state right after `palletAnchor.secureUpTo(callback)` succeeds:
promise pending, subscription active. -/
def initWaiter : WaiterSt := { phase := .pending, subscribed := true }

/-- One subscription notification, as handled by the callback in
waitForSecureUpTo.ts: convert the value, and if it is finite and
`≥ targetBlock`, call `unsub()` and `resolve()`; otherwise do nothing.
If the subscription has been torn down the callback no longer fires, so
the state is unchanged. -/
def waiterStep (targetBlock : Int) (s : WaiterSt) (upTo : WmValue) : WaiterSt :=
  if s.subscribed then
    match upTo.toNum with
    | some n =>
        if n ≥ targetBlock then { phase := .resolved, subscribed := false } else s
    | none => s
  else s

/-- Processing a finite stream of delivered watermark values, in order. -/
def waitRun (targetBlock : Int) (values : List WmValue) : WaiterSt :=
  values.foldl (waiterStep targetBlock) initWaiter

/-- A full `waitForSecureUpTo` invocation: if establishing the
`secureUpTo` subscription throws, the catch branch rejects the promise;
otherwise the delivered values are processed in order. -/
def runWaitForSecureUpTo (subOk : Bool) (targetBlock : Int)
    (values : List WmValue) : WaiterSt :=
  if subOk then waitRun targetBlock values
  else { phase := .rejected, subscribed := false }

/-- Whether a wait over the given delivered stream resolves. Used by the
tracker model: the synthetic callback fires only after the awaited
`waitForSecureUpTo` promise resolves. -/
def waitResolves (targetBlock : Int) (values : List WmValue) : Bool :=
  decide ((waitRun targetBlock values).phase = WaitPhase.resolved)

/-! ## Transaction lifecycle tracker (index.ts `signAndSendSecure`) -/

/-- A block hash, as produced by `status.asFinalized` / `status.asInBlock`. -/
abbrev BlockHash := String

/-- The `event` field of an event record: the source inspects
`event.section` and `event.method`. `section` is a Lean keyword, so the
field is named `sectionName` here. -/
structure ChainEvent where
  sectionName : String
  method : String
deriving DecidableEq, Repr

/-- One entry of `result.events`; the source destructures it as
`({ event }) => ...`. -/
structure EventRecord where
  event : ChainEvent
deriving DecidableEq, Repr

/-- The transaction status variants the source branches on
(`isReady`, `isBroadcast`, `isInBlock`, `isFinalized`); `other` stands for
any further polkadot.js status (Future, Retracted, ...), on which the
source takes no branch. -/
inductive TxStatus where
  | ready
  | broadcast
  | inBlock (h : BlockHash)
  | finalized (h : BlockHash)
  | other
deriving DecidableEq, Repr

/-- The guard `result.status?.isFinalized`. -/
def TxStatus.checkFinalized : TxStatus → Bool
  | .finalized _ => true
  | _ => false

/-- A dispatch error as the test script branches on it:
`dispatchError?.isModule` selects the module variant, which is decoded
through the registry; anything else is reported raw. `ModuleIndex`
abstracts the `asModule` payload passed to `findMetaError`. -/
inductive DispatchError (ModuleIndex : Type) where
  | module (m : ModuleIndex)
  | other (text : String)
deriving DecidableEq, Repr

/-- One `ISubmittableResult` delivered to the `signAndSend` callback:
the fields the sources read are `status`, `events` and `dispatchError`. -/
structure TxResult (ModuleIndex : Type) where
  status : TxStatus
  events : List EventRecord
  dispatchError : Option (DispatchError ModuleIndex)
deriving DecidableEq, Repr

/-- The dispatch-failure marker check shared by both sources:
`(result.events || []).some(({ event }) => event.section === "system" &&
event.method === "ExtrinsicFailed")`. -/
def hasExtrinsicFailed (events : List EventRecord) : Bool :=
  events.any fun r =>
    r.event.sectionName == "system" && r.event.method == "ExtrinsicFailed"

/-- One invocation of the user callback of `signAndSendSecure`. An
ordinary lifecycle invocation passes the result through with the
augmentation fields absent (`isSecureFinalized` undefined, modelled
`false`; `secureFinalizedAt` undefined, modelled `none`); the synthetic
final invocation spreads the finalized result and sets both fields. -/
structure CbCall (ModuleIndex : Type) where
  result : TxResult ModuleIndex
  isSecureFinalized : Bool
  secureFinalizedAt : Option Int
deriving DecidableEq, Repr

/-- An ordinary fan-out invocation: `await cb(result)`. -/
def normalCall {M : Type} (r : TxResult M) : CbCall M :=
  { result := r, isSecureFinalized := false, secureFinalizedAt := none }

/-- The synthetic invocation
`cb({ ...result, isSecureFinalized: true, secureFinalizedAt: includedAt })`. -/
def syntheticCall {M : Type} (r : TxResult M) (includedAt : Int) : CbCall M :=
  { result := r, isSecureFinalized := true, secureFinalizedAt := some includedAt }

/-- Callback invocations produced while handling one delivered result
(`signAndSendSecure`'s inner async callback). `headerNumber` models
`api.rpc.chain.getHeader(hash).number.toNumber()`; `stream` is the
watermark stream delivered to the ensuing `waitForSecureUpTo` call.
The result is first fanned out; on a finalized status, if the block's
events carry the failure marker the handler returns, otherwise the
inclusion height is read from the header, the watermark wait is awaited,
and — once it resolves — the one synthetic callback fires. -/
def processResult {M : Type} (headerNumber : BlockHash → Int)
    (stream : List WmValue) (r : TxResult M) : List (CbCall M) :=
  match r.status with
  | .finalized h =>
      if hasExtrinsicFailed r.events then [normalCall r]
      else
        let includedAt := headerNumber h
        if waitResolves includedAt stream then
          [normalCall r, syntheticCall r includedAt]
        else [normalCall r]
  | _ => [normalCall r]

/-- The full callback sequence emitted by `signAndSendSecure` for a
delivered lifecycle result sequence. -/
def signAndSendSecureEmits {M : Type} (headerNumber : BlockHash → Int)
    (stream : List WmValue) (results : List (TxResult M)) : List (CbCall M) :=
  (results.map (processResult headerNumber stream)).flatten

/-- The targets passed to `waitForSecureUpTo` while handling a delivered
result sequence: the wait subsystem is invoked exactly on a finalized
status whose events carry no failure marker, with the header's number as
target. -/
def secureWaitTargets {M : Type} (headerNumber : BlockHash → Int)
    (results : List (TxResult M)) : List Int :=
  (results.map fun r =>
    match r.status with
    | .finalized h =>
        if hasExtrinsicFailed r.events then [] else [headerNumber h]
    | _ => []).flatten

/-- The decoded error produced by `api.registry.findMetaError(mod)`:
the script reports `error.section`, `error.name` and `error.docs`.
`section` is a Lean keyword, so the field is named `sectionName` here. -/
structure MetaError where
  sectionName : String
  name : String
  docs : List String
deriving DecidableEq, Repr

/-- What the failure branch of the test script reports for a failed
extrinsic: a module error is decoded through the registry
(`findMetaError`), anything else is reported as the raw dispatch error. -/
inductive FailureReport (ModuleIndex : Type) where
  | decoded (e : MetaError)
  | raw (d : Option (DispatchError ModuleIndex))
deriving DecidableEq, Repr

/-- The error-reporting branch of the test script's `Finalized` handler
(and its twin in `sendSudoAdvance`): `if (dispatchError?.isModule)` decode
via the registry, else report the raw error. -/
def describeDispatchFailure {M : Type} (registry : M → MetaError)
    (d : Option (DispatchError M)) : FailureReport M :=
  match d with
  | some (.module m) => .decoded (registry m)
  | _ => .raw d

/-! ## Watermark advancer loop (second script: advance-secure-up-to) -/

/-- Per-tick environment for the advancer loop body. `readFail` is a
throw from the concurrent `getFinalizedNumber` / `getSecureUpTo` reads;
`sample` means both reads succeeded, the finalized height read being
`finalized`, and — should an advancement call be issued this tick —
`advanceOk` tells whether `sendSudoAdvance` resolves (the sudo extrinsic
finalizes without `ExtrinsicFailed`) or rejects. -/
inductive TickEnv where
  | readFail
  | sample (finalized : Int) (advanceOk : Bool)
deriving DecidableEq, Repr

/-- Observable state of an advancer run. `watermark` is the chain's
`secureUpTo` value read by `getSecureUpTo` (a finalized
`noteAnchorVerified(target)` sudo call records `target` there, per the
pallet surface the script drives); `calls` lists the targets of the
privileged advancement calls issued so far, in order; `cooldowns` counts
the error-branch backoffs (`sleep(1000)`); `ticks` counts completed loop
iterations; `sleptMs` totals the milliseconds slept. -/
structure LoopState where
  watermark : Int
  calls : List Int
  cooldowns : Nat
  ticks : Nat
  sleptMs : Nat
deriving DecidableEq, Repr

/-- Fixed cooldown the catch branch sleeps before the interval resumes
(`await sleep(1000)`). -/
def COOLDOWN_MS : Nat := 1000

/-- One iteration of the `while (!stop)` body. Reads finalized height and
watermark; if `finalized > currentUp` then in dry-run mode only log,
otherwise submit `sudo.sudo(noteAnchorVerified(finalized))` and await its
finalization within the tick (success records the target as the new
watermark, a rejection is caught at the tick boundary and triggers the
cooldown). A read error is likewise caught and triggers the cooldown.
Every path then runs the finally block: `await sleep(INTERVAL_SEC*1000)`. -/
def loopTick (dryRun : Bool) (intervalMs : Nat) (s : LoopState)
    (e : TickEnv) : LoopState :=
  match e with
  | .readFail =>
      { s with cooldowns := s.cooldowns + 1, ticks := s.ticks + 1,
               sleptMs := s.sleptMs + COOLDOWN_MS + intervalMs }
  | .sample finalized advanceOk =>
      if finalized > s.watermark then
        if dryRun then
          { s with ticks := s.ticks + 1, sleptMs := s.sleptMs + intervalMs }
        else if advanceOk then
          { s with watermark := finalized, calls := s.calls ++ [finalized],
                   ticks := s.ticks + 1, sleptMs := s.sleptMs + intervalMs }
        else
          { s with calls := s.calls ++ [finalized],
                   cooldowns := s.cooldowns + 1, ticks := s.ticks + 1,
                   sleptMs := s.sleptMs + COOLDOWN_MS + intervalMs }
      else
        { s with ticks := s.ticks + 1, sleptMs := s.sleptMs + intervalMs }

/-- What the loop sees at the top of an iteration: either the external
stop flag has been set (SIGINT handler), or the iteration proceeds with
the given tick environment. -/
inductive LoopEvent where
  | stopSignal
  | tick (e : TickEnv)
deriving DecidableEq, Repr

/-- The advancer run: `while (!stop)` processes iterations until the stop
flag is observed; the remaining events are never processed. -/
def loopRun (dryRun : Bool) (intervalMs : Nat) :
    LoopState → List LoopEvent → LoopState
  | s, [] => s
  | s, .stopSignal :: _ => s
  | s, .tick e :: rest => loopRun dryRun intervalMs (loopTick dryRun intervalMs s e) rest

/-- Initial state for the Scenario A run: watermark starts at 10, no
calls issued yet. -/
def scenarioAInit : LoopState :=
  { watermark := 10, calls := [], cooldowns := 0, ticks := 0, sleptMs := 0 }

/-- Scenario A of the spec: finalized-height samples [10,10,11,11,12]
observed on successive ticks, dry-run disabled, every issued advancement
finalizing successfully, default interval 6 s. -/
def scenarioA : LoopState :=
  loopRun false 6000 scenarioAInit
    [.tick (.sample 10 true), .tick (.sample 10 true), .tick (.sample 11 true),
     .tick (.sample 11 true), .tick (.sample 12 true)]

/-! ### Small-step view of the advancer (single-flight claim)

The loop body suspends at its awaits; the step relation below makes those
suspension points explicit so that "an advancement call is outstanding"
is a state, not an instant. `inFlight` is the script's module-level flag:
set at the start of a working iteration, cleared by the finally block
(which also runs on the `continue` of the guard path). Dry-run mode never
submits, so the relation models DRY_RUN=0 runs. -/

/-- Control position of the advancer flow: at the loop top (between
iterations), suspended inside `await sendSudoAdvance` with the given
target, or exited. -/
inductive AdvPhase where
  | top
  | awaitingCall (target : Int)
  | done
deriving DecidableEq, Repr

/-- Number of privileged advancement calls currently in flight
(submitted by `sendSudoAdvance`, finalization not yet observed). -/
def outstandingCalls : AdvPhase → Nat
  | .awaitingCall _ => 1
  | _ => 0

/-- State of the advancer flow between suspension points. -/
structure AdvancerState where
  phase : AdvPhase
  inFlight : Bool
  watermark : Int
  calls : List Int
deriving DecidableEq, Repr

/-- One step of the advancer between suspension points.
`stopExit`: the loop top observes `stop` and exits.
`skipInFlight`: the guard `if (inFlight) { await sleep(200); continue; }`
— no reads, no calls; the finally block clears `inFlight`.
`tickNoAdvance`: reads succeed and `finalized ≤ watermark`; no call.
`readError`: a read throws; caught, cooldown, loop continues.
`tickIssue`: reads succeed, `finalized > watermark`; `inFlight` was set at
iteration start and the sudo call is submitted — the flow now awaits it.
`callFinalizedOk`: the awaited call finalizes successfully; the chain's
`secureUpTo` now holds the target; finally clears `inFlight`.
`callFailed`: the awaited call rejects; caught at the tick boundary,
cooldown; finally clears `inFlight`. -/
inductive AdvStep : AdvancerState → AdvancerState → Prop where
  | stopExit (fl : Bool) (w : Int) (cs : List Int) :
      AdvStep ⟨.top, fl, w, cs⟩ ⟨.done, fl, w, cs⟩
  | skipInFlight (w : Int) (cs : List Int) :
      AdvStep ⟨.top, true, w, cs⟩ ⟨.top, false, w, cs⟩
  | tickNoAdvance (f w : Int) (cs : List Int) : f ≤ w →
      AdvStep ⟨.top, false, w, cs⟩ ⟨.top, false, w, cs⟩
  | readError (w : Int) (cs : List Int) :
      AdvStep ⟨.top, false, w, cs⟩ ⟨.top, false, w, cs⟩
  | tickIssue (f w : Int) (cs : List Int) : f > w →
      AdvStep ⟨.top, false, w, cs⟩ ⟨.awaitingCall f, true, w, cs ++ [f]⟩
  | callFinalizedOk (f w : Int) (cs : List Int) :
      AdvStep ⟨.awaitingCall f, true, w, cs⟩ ⟨.top, false, f, cs⟩
  | callFailed (f w : Int) (cs : List Int) :
      AdvStep ⟨.awaitingCall f, true, w, cs⟩ ⟨.top, false, w, cs⟩

/-! ## Prototype augmentation (index.ts `installSignAndSendSecure`) -/

/-- The method value installed on the prototype, i.e. the observable
behaviour of `signAndSendSecure` over lifecycle results and the watermark
stream, for module-index type `M`. -/
def SecureMethod (M : Type) : Type :=
  (BlockHash → Int) → List WmValue → List (TxResult M) → List (CbCall M)

/-- The slice of the Submittable prototype the installer touches: the
`signAndSendSecure` property, absent (`none`) before installation. -/
structure SubmittableProto (M : Type) where
  signAndSendSecure : Option (SecureMethod M)

/-- `installSignAndSendSecure`: read the prototype; if it already carries
`signAndSendSecure`, return without modifying it; otherwise assign the
method. -/
def installSignAndSendSecure {M : Type} (proto : SubmittableProto M) :
    SubmittableProto M :=
  if proto.signAndSendSecure.isSome then proto
  else { signAndSendSecure := some (signAndSendSecureEmits (M := M)) }

/-! ## Helper lemmas -/

theorem waiterStep_of_unsubscribed (targetBlock : Int) (s : WaiterSt)
    (v : WmValue) (h : s.subscribed = false) :
    waiterStep targetBlock s v = s := by
  simp [waiterStep, h]

theorem foldl_waiterStep_unsubscribed (targetBlock : Int) (s : WaiterSt)
    (vs : List WmValue) (h : s.subscribed = false) :
    vs.foldl (waiterStep targetBlock) s = s := by
  induction vs with
  | nil => rfl
  | cons v vs ih =>
      simp only [List.foldl_cons, waiterStep_of_unsubscribed targetBlock s v h]
      exact ih

/-- A first notification that is finite and at or above the target
resolves and unsubscribes immediately. -/
theorem waiterStep_first_resolves (targetBlock n : Int) (v : WmValue)
    (hv : v.toNum = some n) (hn : targetBlock ≤ n) :
    waiterStep targetBlock initWaiter v =
      { phase := .resolved, subscribed := false } := by
  simp [waiterStep, initWaiter, hv, hn]

theorem processResult_of_not_finalized {M : Type} (headerNumber : BlockHash → Int)
    (stream : List WmValue) (r : TxResult M)
    (h : r.status.checkFinalized = false) :
    processResult headerNumber stream r = [normalCall r] := by
  cases hst : r.status <;>
    simp_all [processResult, TxStatus.checkFinalized]

theorem emits_of_all_not_finalized {M : Type} (headerNumber : BlockHash → Int)
    (stream : List WmValue) (rs : List (TxResult M))
    (h : ∀ r ∈ rs, r.status.checkFinalized = false) :
    signAndSendSecureEmits headerNumber stream rs = rs.map normalCall := by
  induction rs with
  | nil => rfl
  | cons r rs ih =>
      have hr : r.status.checkFinalized = false := h r (by simp)
      have hrest : ∀ x ∈ rs, x.status.checkFinalized = false :=
        fun x hx => h x (by simp [hx])
      simp only [signAndSendSecureEmits, List.map_cons, List.flatten_cons,
        processResult_of_not_finalized headerNumber stream r hr]
      simp [signAndSendSecureEmits] at ih
      simp [ih hrest]

theorem filter_secure_map_normalCall {M : Type} (rs : List (TxResult M)) :
    (rs.map normalCall).filter (fun c => c.isSecureFinalized) = [] := by
  induction rs with
  | nil => rfl
  | cons r rs ih => simp [normalCall, ih]

theorem signAndSendSecureEmits_append {M : Type} (headerNumber : BlockHash → Int)
    (stream : List WmValue) (rs ts : List (TxResult M)) :
    signAndSendSecureEmits headerNumber stream (rs ++ ts) =
      signAndSendSecureEmits headerNumber stream rs ++
        signAndSendSecureEmits headerNumber stream ts := by
  simp [signAndSendSecureEmits]

theorem secureWaitTargets_of_all_not_finalized {M : Type}
    (headerNumber : BlockHash → Int) (rs : List (TxResult M))
    (h : ∀ r ∈ rs, r.status.checkFinalized = false) :
    secureWaitTargets headerNumber rs = [] := by
  induction rs with
  | nil => rfl
  | cons r rs ih =>
      have hr : r.status.checkFinalized = false := h r (by simp)
      have hrest : ∀ x ∈ rs, x.status.checkFinalized = false :=
        fun x hx => h x (by simp [hx])
      have hhead : (match r.status with
          | TxStatus.finalized hb =>
              if hasExtrinsicFailed r.events then ([] : List Int)
              else [headerNumber hb]
          | _ => ([] : List Int)) = [] := by
        cases hst : r.status <;> simp_all [TxStatus.checkFinalized]
      simp only [secureWaitTargets, List.map_cons, List.flatten_cons, hhead,
        List.nil_append]
      simpa [secureWaitTargets] using ih hrest

theorem loopTick_ticks (dryRun : Bool) (intervalMs : Nat) (s : LoopState)
    (e : TickEnv) : (loopTick dryRun intervalMs s e).ticks = s.ticks + 1 := by
  cases e with
  | readFail => simp [loopTick]
  | sample f ok =>
      by_cases hf : f > s.watermark <;> cases dryRun <;> cases ok <;>
        simp [loopTick, hf]

theorem loopRun_ticks_of_no_stop (dryRun : Bool) (intervalMs : Nat) :
    ∀ (events : List LoopEvent) (s : LoopState),
      (∀ ev ∈ events, ev ≠ LoopEvent.stopSignal) →
      (loopRun dryRun intervalMs s events).ticks = s.ticks + events.length := by
  intro events
  induction events with
  | nil => intro s _; rfl
  | cons ev rest ih =>
      intro s hstop
      cases ev with
      | stopSignal => exact absurd rfl (hstop LoopEvent.stopSignal (by simp))
      | tick e =>
          have hrest : ∀ x ∈ rest, x ≠ LoopEvent.stopSignal :=
            fun x hx => hstop x (List.mem_cons_of_mem _ hx)
          calc (loopRun dryRun intervalMs s (LoopEvent.tick e :: rest)).ticks
              = (loopRun dryRun intervalMs
                  (loopTick dryRun intervalMs s e) rest).ticks := rfl
            _ = (loopTick dryRun intervalMs s e).ticks + rest.length :=
                  ih (loopTick dryRun intervalMs s e) hrest
            _ = s.ticks + 1 + rest.length := by rw [loopTick_ticks]
            _ = s.ticks + (rest.length + 1) := by omega
            _ = s.ticks + (LoopEvent.tick e :: rest).length := by
                  rw [List.length_cons]

/-! ## Claim theorems -/

/-- A single notification preserves the property that the subscription
is torn down only on a resolved promise: the callback invokes `unsub()`
only in the branch that also calls `resolve()`, and otherwise leaves the
state unchanged. -/
theorem waiterStep_teardown_invariant (targetBlock : Int) (s : WaiterSt)
    (v : WmValue)
    (h : s.subscribed = false → s.phase = WaitPhase.resolved)
    (h2 : (waiterStep targetBlock s v).subscribed = false) :
    (waiterStep targetBlock s v).phase = WaitPhase.resolved := by
  by_cases hs : s.subscribed = true
  · cases hv : v.toNum with
    | none =>
        rw [show waiterStep targetBlock s v = s by simp [waiterStep, hs, hv]]
          at h2 ⊢
        exact h h2
    | some n =>
        by_cases hn : n ≥ targetBlock
        · simp [waiterStep, hs, hv, hn]
        · rw [show waiterStep targetBlock s v = s by
            simp [waiterStep, hs, hv, hn]] at h2 ⊢
          exact h h2
  · have hs' : s.subscribed = false := by simpa using hs
    rw [waiterStep_of_unsubscribed targetBlock s v hs'] at h2 ⊢
    exact h h2

/-- The teardown-only-on-resolution property is preserved along any
delivered stream. -/
theorem foldl_waiterStep_teardown_invariant (targetBlock : Int) :
    ∀ (vs : List WmValue) (s : WaiterSt),
      (s.subscribed = false → s.phase = WaitPhase.resolved) →
      (vs.foldl (waiterStep targetBlock) s).subscribed = false →
      (vs.foldl (waiterStep targetBlock) s).phase = WaitPhase.resolved := by
  intro vs
  induction vs with
  | nil => intro s h h2; exact h h2
  | cons v rest ih =>
      intro s h h2
      exact ih (waiterStep targetBlock s v)
        (waiterStep_teardown_invariant targetBlock s v h) h2

/-- C4 counterexample: at a concrete fresh wait with target 100, no
notification of any behavioural class — satisfying, below target, or
non-finite — tears down the subscription while leaving the promise
pending: the silent cancellation operation the claim asserts to be
supported does not occur; the only teardown (a satisfying value) comes
with resolution. -/
theorem no_silent_cancellation :
    ¬((waiterStep 100 initWaiter (WmValue.finite 100)).phase =
        WaitPhase.pending ∧
      (waiterStep 100 initWaiter (WmValue.finite 100)).subscribed = false) ∧
    ¬((waiterStep 100 initWaiter (WmValue.finite 99)).subscribed = false) ∧
    ¬((waiterStep 100 initWaiter WmValue.nonFinite).subscribed = false) ∧
    (waiterStep 100 initWaiter (WmValue.finite 100)).phase =
      WaitPhase.resolved := by decide

/-- C4 (amended): `waitForSecureUpTo` supports no caller cancellation —
the unsubscribe handle is closure-private and is invoked only when the
wait is satisfied, together with `resolve()` (index.ts notes the unsub
it returns does not cancel the secureUpTo wait). Hence for every wait
whose subscription was established, if the subscription has been torn
down the caller-visible future has resolved: the subscription is never
torn down leaving the future pending (nor rejected). -/
theorem teardown_implies_resolved (targetBlock : Int) (vs : List WmValue)
    (h : (runWaitForSecureUpTo true targetBlock vs).subscribed = false) :
    (runWaitForSecureUpTo true targetBlock vs).phase =
      WaitPhase.resolved := by
  have hrun : (waitRun targetBlock vs).subscribed = false →
      (waitRun targetBlock vs).phase = WaitPhase.resolved := by
    unfold waitRun
    exact foldl_waiterStep_teardown_invariant targetBlock vs initWaiter
      (fun hc => absurd hc (by simp [initWaiter]))
  simp only [runWaitForSecureUpTo, if_true] at h ⊢
  exact hrun h

/-- Witness for C4's amended theorem: the wait at target 100 whose first
value is 100 has its subscription torn down, and indeed resolved. -/
theorem teardown_implies_resolved_witness :
    (runWaitForSecureUpTo true 100 [WmValue.finite 100]).subscribed =
      false ∧
    (runWaitForSecureUpTo true 100 [WmValue.finite 100]).phase =
      WaitPhase.resolved :=
  ⟨by decide, teardown_implies_resolved 100 [WmValue.finite 100] (by decide)⟩

/-- C5: for every target, if the first value delivered by the watermark
subscription is already at or above the target, `waitForSecureUpTo`
resolves and unsubscribes on that very first notification, and the whole
wait resolves without requiring any subsequent notification. -/
theorem first_notification_resolves (targetBlock n : Int) (v : WmValue)
    (rest : List WmValue) (hv : v.toNum = some n) (hn : targetBlock ≤ n) :
    waiterStep targetBlock initWaiter v =
      { phase := .resolved, subscribed := false } ∧
    runWaitForSecureUpTo true targetBlock (v :: rest) =
      { phase := .resolved, subscribed := false } := by
  have h1 := waiterStep_first_resolves targetBlock n v hv hn
  refine ⟨h1, ?_⟩
  have h2 : waitRun targetBlock (v :: rest) =
      { phase := .resolved, subscribed := false } := by
    simp only [waitRun, List.foldl_cons, h1]
    exact foldl_waiterStep_unsubscribed targetBlock _ rest rfl
  simpa [runWaitForSecureUpTo] using h2

/-- Witness for C5 at target 100 with first value 105. -/
theorem first_notification_resolves_witness :
    (WmValue.finite 105).toNum = some 105 ∧ (100 : Int) ≤ 105 ∧
    runWaitForSecureUpTo true 100 [WmValue.finite 105, WmValue.finite 99] =
      { phase := .resolved, subscribed := false } :=
  ⟨rfl, by decide,
    (first_notification_resolves 100 105 (WmValue.finite 105)
      [WmValue.finite 99] rfl (by decide)).2⟩

/-- C10: a watermark notification whose value does not convert to a
finite number is silently ignored: for any target and any waiter state
the step leaves the state unchanged — it neither resolves nor rejects
the promise nor unsubscribes, and the wait continues. -/
theorem nonfinite_notification_ignored (targetBlock : Int) (s : WaiterSt)
    (v : WmValue) (hv : v.toNum = none) :
    waiterStep targetBlock s v = s := by
  by_cases h : s.subscribed <;> simp [waiterStep, hv, h]

/-- Witness for C10 at target 0 on a fresh wait. -/
theorem nonfinite_notification_ignored_witness :
    WmValue.nonFinite.toNum = none ∧
    waiterStep 0 initWaiter WmValue.nonFinite = initWaiter :=
  ⟨rfl, nonfinite_notification_ignored 0 initWaiter WmValue.nonFinite rfl⟩

/-- C9: `installSignAndSendSecure` is idempotent: if the prototype
already carries a `signAndSendSecure` method the call returns it
unmodified, and installing twice is observably equal to installing
once. -/
theorem install_idempotent {M : Type} (p q : SubmittableProto M)
    (h : p.signAndSendSecure.isSome = true) :
    installSignAndSendSecure p = p ∧
    installSignAndSendSecure (installSignAndSendSecure q) =
      installSignAndSendSecure q := by
  constructor
  · simp [installSignAndSendSecure, h]
  · by_cases hq : q.signAndSendSecure.isSome <;>
      simp [installSignAndSendSecure, hq]

/-- Witness for C9 on a prototype already carrying the method. -/
theorem install_idempotent_witness :
    ((⟨some (signAndSendSecureEmits (M := Unit))⟩ :
        SubmittableProto Unit).signAndSendSecure).isSome = true ∧
    installSignAndSendSecure
        (⟨some (signAndSendSecureEmits (M := Unit))⟩ :
          SubmittableProto Unit) =
      ⟨some (signAndSendSecureEmits (M := Unit))⟩ :=
  ⟨rfl,
    (install_idempotent
      (⟨some (signAndSendSecureEmits (M := Unit))⟩ : SubmittableProto Unit)
      (⟨some (signAndSendSecureEmits (M := Unit))⟩ : SubmittableProto Unit)
      rfl).1⟩

/-- C3 counterexample: in Scenario A — finalized samples [10,10,11,11,12]
on successive ticks, watermark starting at 10, dry-run disabled, every
call finalizing — the run does not issue exactly one advancement call
targeting 12. -/
theorem scenarioA_not_single_call :
    ¬(scenarioA.calls.length = 1 ∧ scenarioA.calls = [12]) := by decide

/-- C3 (amended): in Scenario A the advancer issues exactly two
advancement calls, targeting 11 and then 12 — one per tick that observes
the finalized height above the watermark, not one after the height
stabilizes. -/
theorem scenarioA_two_calls : scenarioA.calls = [11, 12] := by decide

/-- C6: one advancer tick with dry-run disabled: if the observed
finalized height exceeds the watermark, exactly one privileged
advancement call targeting that height is issued and its finalization is
awaited within the tick (on success the watermark at the end of the tick
equals the target); if the finalized height is at or below the
watermark, the tick issues zero privileged calls. -/
theorem tick_advances_iff_lag (intervalMs : Nat) (s : LoopState) (f : Int)
    (advanceOk : Bool) :
    (f > s.watermark →
      (loopTick false intervalMs s (.sample f advanceOk)).calls =
        s.calls ++ [f] ∧
      (advanceOk = true →
        (loopTick false intervalMs s (.sample f advanceOk)).watermark = f)) ∧
    (f ≤ s.watermark →
      (loopTick false intervalMs s (.sample f advanceOk)).calls = s.calls) := by
  constructor
  · intro hf
    cases advanceOk <;> simp [loopTick, hf]
  · intro hf
    have hnot : ¬ f > s.watermark := not_lt.mpr hf
    simp [loopTick, hnot]

/-- Witness for C6: finalized 5 against watermark 3 issues the one call
targeting 5 and completes it within the tick. -/
theorem tick_advances_iff_lag_witness :
    (5 : Int) > (⟨3, [], 0, 0, 0⟩ : LoopState).watermark ∧
    (loopTick false 6000 ⟨3, [], 0, 0, 0⟩ (.sample 5 true)).calls =
      [] ++ [5] ∧
    (loopTick false 6000 ⟨3, [], 0, 0, 0⟩ (.sample 5 true)).watermark = 5 := by
  have h := (tick_advances_iff_lag 6000 ⟨3, [], 0, 0, 0⟩ 5 true).1 (by decide)
  exact ⟨by decide, h.1, h.2 rfl⟩

/-- C7: single-flight invariant of the advancer: every step of the
loop's flow keeps at most one advancement call outstanding; a step taken
while a call is outstanding issues no new call — the overlapping
advancement is dropped, not queued; and from the loop top with the
in-flight flag set, a step performs no work: the issued calls and the
watermark are untouched. -/
theorem single_flight_invariant (s t : AdvancerState) (hstep : AdvStep s t) :
    outstandingCalls t.phase ≤ 1 ∧
    (outstandingCalls s.phase = 1 → t.calls = s.calls) ∧
    (s.phase = AdvPhase.top → s.inFlight = true →
      t.calls = s.calls ∧ t.watermark = s.watermark) := by
  cases hstep <;> simp [outstandingCalls]

/-- Witness for C7: the step in which the outstanding call targeting 7
finalizes issues no new call. -/
theorem single_flight_invariant_witness :
    AdvStep ⟨AdvPhase.awaitingCall 7, true, 3, [7]⟩
      ⟨AdvPhase.top, false, 7, [7]⟩ ∧
    outstandingCalls (AdvPhase.awaitingCall 7) = 1 ∧
    (⟨AdvPhase.top, false, 7, [7]⟩ : AdvancerState).calls =
      (⟨AdvPhase.awaitingCall 7, true, 3, [7]⟩ : AdvancerState).calls := by
  have hs : AdvStep ⟨AdvPhase.awaitingCall 7, true, 3, [7]⟩
      ⟨AdvPhase.top, false, 7, [7]⟩ := AdvStep.callFinalizedOk 7 3 [7]
  exact ⟨hs, rfl, (single_flight_invariant _ _ hs).2.1 rfl⟩

/-- C8: advancer failure policy: a transient read error or a failed
advancement call is caught at the tick boundary and triggers the fixed
cooldown before the normal interval resumes; no tick error terminates
the loop — a run whose events contain no stop signal executes every
tick — and the loop exits, leaving events unprocessed, exactly on the
external stop signal. -/
theorem tick_errors_nonfatal (dryRun : Bool) (intervalMs : Nat)
    (s : LoopState) (events : List LoopEvent) (f : Int)
    (hstop : ∀ ev ∈ events, ev ≠ LoopEvent.stopSignal) :
    (loopRun dryRun intervalMs s events).ticks = s.ticks + events.length ∧
    (loopTick dryRun intervalMs s .readFail).cooldowns = s.cooldowns + 1 ∧
    (loopTick dryRun intervalMs s .readFail).sleptMs =
      s.sleptMs + COOLDOWN_MS + intervalMs ∧
    (f > s.watermark →
      (loopTick false intervalMs s (.sample f false)).cooldowns =
        s.cooldowns + 1 ∧
      (loopTick false intervalMs s (.sample f false)).sleptMs =
        s.sleptMs + COOLDOWN_MS + intervalMs) ∧
    (∀ rest, loopRun dryRun intervalMs s (LoopEvent.stopSignal :: rest) = s) := by
  refine ⟨loopRun_ticks_of_no_stop dryRun intervalMs events s hstop,
    by simp [loopTick], by simp [loopTick], ?_, fun rest => rfl⟩
  intro hf
  constructor <;> simp [loopTick, hf]

/-- Witness for C8: a read-error tick is executed (not fatal) and a
failed advancement triggers the cooldown. -/
theorem tick_errors_nonfatal_witness :
    (loopRun false 6000 ⟨0, [], 0, 0, 0⟩
      [LoopEvent.tick TickEnv.readFail]).ticks = 0 + 1 ∧
    (loopTick false 6000 ⟨0, [], 0, 0, 0⟩ (.sample 1 false)).cooldowns =
      0 + 1 := by
  have h := tick_errors_nonfatal false 6000 ⟨0, [], 0, 0, 0⟩
    [LoopEvent.tick TickEnv.readFail] 1 (by decide)
  exact ⟨h.1, (h.2.2.2.1 (by decide)).1⟩

/-- C1: for every lifecycle sequence that reaches `Finalized` (delivered
in chain order, `Finalized` last) whose finalized-block events carry no
dispatch-failure marker, and whose watermark wait resolves, the callback
sequence emitted by `signAndSendSecure` contains exactly one synthetic
`SecureFinalized` invocation, it is the last invocation, and its
`secureFinalizedAt` equals the inclusion block number read from the
finalized block's header. -/
theorem secure_finalized_unique_last {M : Type}
    (headerNumber : BlockHash → Int) (stream : List WmValue)
    (earlier : List (TxResult M)) (rf : TxResult M) (hb : BlockHash)
    (hrf : rf.status = TxStatus.finalized hb)
    (hearlier : ∀ r ∈ earlier, r.status.checkFinalized = false)
    (hok : hasExtrinsicFailed rf.events = false)
    (hwait : waitResolves (headerNumber hb) stream = true) :
    ((signAndSendSecureEmits headerNumber stream (earlier ++ [rf])).filter
        (fun c => c.isSecureFinalized)).length = 1 ∧
    (signAndSendSecureEmits headerNumber stream (earlier ++ [rf])).getLast? =
      some (syntheticCall rf (headerNumber hb)) ∧
    (syntheticCall rf (headerNumber hb)).secureFinalizedAt =
      some (headerNumber hb) := by
  have hfin : processResult headerNumber stream rf =
      [normalCall rf, syntheticCall rf (headerNumber hb)] := by
    simp [processResult, hrf, hok, hwait]
  have hsplit : signAndSendSecureEmits headerNumber stream (earlier ++ [rf]) =
      earlier.map normalCall ++
        [normalCall rf, syntheticCall rf (headerNumber hb)] := by
    rw [signAndSendSecureEmits_append,
        emits_of_all_not_finalized headerNumber stream earlier hearlier]
    simp [signAndSendSecureEmits, hfin]
  refine ⟨?_, ?_, rfl⟩
  · rw [hsplit, List.filter_append, filter_secure_map_normalCall]
    simp [normalCall, syntheticCall]
  · rw [hsplit, show earlier.map normalCall ++
        [normalCall rf, syntheticCall rf (headerNumber hb)] =
        (earlier.map normalCall ++ [normalCall rf]) ++
          [syntheticCall rf (headerNumber hb)] by simp]
    exact List.getLast?_concat _

/-- Witness for C1: a Ready result then a clean Finalized result in block
100, watermark stream reaching 105. -/
theorem secure_finalized_unique_last_witness :
    waitResolves 100 [WmValue.finite 105] = true ∧
    ((signAndSendSecureEmits (fun _ => 100) [WmValue.finite 105]
        ([(⟨TxStatus.ready, [], none⟩ : TxResult Unit)] ++
          [(⟨TxStatus.finalized "0xabc", [], none⟩ : TxResult Unit)])).filter
        (fun c => c.isSecureFinalized)).length = 1 := by
  have h := secure_finalized_unique_last (M := Unit) (fun _ => 100)
    [WmValue.finite 105] [⟨TxStatus.ready, [], none⟩]
    ⟨TxStatus.finalized "0xabc", [], none⟩ "0xabc" rfl (by decide) rfl
    (by decide)
  exact ⟨by decide, h.1⟩

/-- C2: for every lifecycle sequence (delivered in chain order,
`Finalized` last) whose finalized-block events contain the
dispatch-failure marker, no `SecureFinalized` callback is ever emitted
for any watermark stream, the watermark-wait subsystem is never invoked,
and the failure branch reports the decoded module error — namespace,
name and documentation text from the registry. -/
theorem failed_tx_no_secure_wait {M : Type}
    (headerNumber : BlockHash → Int) (stream : List WmValue)
    (earlier : List (TxResult M)) (rf : TxResult M) (hb : BlockHash)
    (m : M) (registry : M → MetaError)
    (hrf : rf.status = TxStatus.finalized hb)
    (hearlier : ∀ r ∈ earlier, r.status.checkFinalized = false)
    (hfail : hasExtrinsicFailed rf.events = true)
    (hmod : rf.dispatchError = some (DispatchError.module m)) :
    (∀ c ∈ signAndSendSecureEmits headerNumber stream (earlier ++ [rf]),
      c.isSecureFinalized = false) ∧
    secureWaitTargets headerNumber (earlier ++ [rf]) = [] ∧
    describeDispatchFailure registry rf.dispatchError =
      FailureReport.decoded (registry m) := by
  have hfin : processResult headerNumber stream rf = [normalCall rf] := by
    simp [processResult, hrf, hfail]
  have hsplit : signAndSendSecureEmits headerNumber stream (earlier ++ [rf]) =
      earlier.map normalCall ++ [normalCall rf] := by
    rw [signAndSendSecureEmits_append,
        emits_of_all_not_finalized headerNumber stream earlier hearlier]
    simp [signAndSendSecureEmits, hfin]
  refine ⟨?_, ?_, by simp [describeDispatchFailure, hmod]⟩
  · intro c hc
    rw [hsplit] at hc
    rcases List.mem_append.mp hc with h1 | h2
    · rcases List.mem_map.mp h1 with ⟨r, _, hr⟩
      rw [← hr]; rfl
    · have : c = normalCall rf := by simpa using h2
      rw [this]; rfl
  · have happ : secureWaitTargets headerNumber (earlier ++ [rf]) =
        secureWaitTargets headerNumber earlier ++
          secureWaitTargets headerNumber [rf] := by
      simp [secureWaitTargets]
    rw [happ,
        secureWaitTargets_of_all_not_finalized headerNumber earlier hearlier]
    simp [secureWaitTargets, hrf, hfail]

/-- Witness for C2: a Finalized result whose events carry
system.ExtrinsicFailed and whose dispatch error is a module error. -/
theorem failed_tx_no_secure_wait_witness :
    hasExtrinsicFailed [⟨⟨"system", "ExtrinsicFailed"⟩⟩] = true ∧
    secureWaitTargets (fun _ => 100)
      (([] : List (TxResult Unit)) ++
        [(⟨TxStatus.finalized "0xdef", [⟨⟨"system", "ExtrinsicFailed"⟩⟩],
          some (DispatchError.module ())⟩ : TxResult Unit)]) = [] ∧
    describeDispatchFailure
        (fun _ => (⟨"balances", "InsufficientBalance", ["Balance too low."]⟩ :
          MetaError))
        ((⟨TxStatus.finalized "0xdef", [⟨⟨"system", "ExtrinsicFailed"⟩⟩],
          some (DispatchError.module ())⟩ : TxResult Unit)).dispatchError =
      FailureReport.decoded
        ⟨"balances", "InsufficientBalance", ["Balance too low."]⟩ := by
  have h := failed_tx_no_secure_wait (M := Unit) (fun _ => 100) []
    ([] : List (TxResult Unit))
    (⟨TxStatus.finalized "0xdef", [⟨⟨"system", "ExtrinsicFailed"⟩⟩],
      some (DispatchError.module ())⟩ : TxResult Unit) "0xdef" ()
    (fun _ => (⟨"balances", "InsufficientBalance", ["Balance too low."]⟩ :
      MetaError))
    rfl (by simp) (by decide) rfl
  exact ⟨by decide, h.2.1, h.2.2⟩
